import Mathlib

/-!
Verification of the read-only SQL gatekeeper in
`src/vanna/integrations/mysql/read_only_runner.py`.

The Python module validates candidate SQL strings (`validate_sql`) and runs
approved queries on a fresh connection that is first forced into session-level
read-only mode (`run_sql`).  We give a shallow embedding of that module:

* character-level models of the `sqlparse` operations the code calls:
  `sqlparse.format(strip_comments=True, strip_whitespace=True)` via
  `StripCommentsFilter` (comments replaced by a space; optimizer hints
  `--+`/`# +`/`/*+ ... */` preserved; an unterminated `/*` never tokenizes
  as a comment and passes through), `sqlparse.parse` statement splitting via
  `StatementSplitter` (`_change_splitlevel`: parenthesis depth, the
  `CREATE`/`DECLARE`/`BEGIN`/`END`/`IF`/`FOR`/`WHILE`/`CASE` level rules
  with `_is_create` and `_begin_depth`, a semicolon terminating only at
  level at most zero), and `Statement.get_type` with the runner's
  first-token fallback, including the CTE branch that classifies a
  `WITH`-headed statement by the DML keyword after its definition list.
  The models are faithful on ASCII input at the token level the validator
  observes; quoted literals are respected throughout;
* the module-level allow-list and blocklist constants;
* `validate_sql` as a total function into `Except PyError Unit`, where
  `Except.error` models a raised exception and `Except.ok` a normal return;
* `run_sql` as a trace-producing function over an oracle describing which
  database calls succeed, so that ordering and resource-release properties are
  statements about the produced event trace.
-/

namespace ReadOnlyRunner

/-- Python whitespace characters relevant to `str.strip` and the regex class
`\s` on ASCII input: space, tab, newline, carriage return, form feed,
vertical tab. -/
def isSpaceChar (c : Char) : Bool :=
  c = ' ' || c = '\t' || c = '\n' || c = '\r' || c = '\x0c' || c = '\x0b'

/-- Characters in the regex word class `\w` (ASCII): letters, digits,
underscore.  Word-boundary `\b` holds between a `\w` and a non-`\w`
character (or the string edge). -/
def isWordChar (c : Char) : Bool :=
  (('a' ≤ c && c ≤ 'z') || ('A' ≤ c && c ≤ 'Z') || ('0' ≤ c && c ≤ '9') || c = '_')

/-- Python `str.strip()` on a character list: drop whitespace at both ends. -/
def pstrip (s : List Char) : List Char :=
  List.rdropWhile isSpaceChar (s.dropWhile isSpaceChar)

/-- Python `str.upper()` on ASCII text. -/
def upChars (s : List Char) : List Char :=
  s.map Char.toUpper

/-- Whether the text contains a block-comment terminator `*/`.  The sqlparse
tokenizer regex for block comments is non-greedy and requires a closing
`*/`; a `/*` with no later `*/` is tokenized as plain operator characters,
not as a comment. -/
def hasCommentClose : List Char → Bool
  | [] => false
  | '*' :: '/' :: _ => true
  | _ :: rest => hasCommentClose rest

/-- Lexer state while scanning SQL text for comments: outside any literal,
inside a single-quoted / double-quoted / backtick-quoted literal (with a
pending-backslash-escape variant for the first two), inside a `--` or `# `
line comment, inside a `/* ... */` block comment, or inside a preserved
optimizer-hint comment (`--+ ...` to end of line, `/*+ ... */`). -/
inductive ScanMode
  | normal
  | singleQ
  | singleQEsc
  | doubleQ
  | doubleQEsc
  | backtickQ
  | lineComment
  | blockComment
  | hintLine
  | hintBlock
deriving DecidableEq, Repr

open ScanMode in
/-- Model of `sqlparse.format(strip_comments=True)` via `StripCommentsFilter`:
remove `/* ... */` block comments and `--` / `# ` line comments, replacing
each with a single space, while leaving quoted literals untouched (sqlparse
tokenizes literals, so comment markers inside them are not comments).
Following the tokenizer and the filter:

* optimizer hints (`--+ ...` and `# +...` to end of line, `/*+ ... */`) are
  SQL-hint tokens that `StripCommentsFilter` skips, so they are emitted
  unchanged (issue262 behaviour);
* a `/*` (or `/*+`) with no later `*/` never forms a comment token — the
  tokenizer regex requires the terminator — so its text passes through and
  keeps being scanned as ordinary SQL. -/
def stripCommentsAux : ScanMode → List Char → List Char
  | _, [] => []
  | normal, '-' :: '-' :: '+' :: rest => '-' :: '-' :: '+' :: stripCommentsAux hintLine rest
  | normal, '-' :: '-' :: rest => stripCommentsAux lineComment rest
  | normal, '#' :: ' ' :: '+' :: rest => '#' :: ' ' :: '+' :: stripCommentsAux hintLine rest
  | normal, '#' :: ' ' :: rest => stripCommentsAux lineComment rest
  | normal, '/' :: '*' :: '+' :: rest =>
      if hasCommentClose rest then '/' :: '*' :: '+' :: stripCommentsAux hintBlock rest
      else '/' :: '*' :: '+' :: stripCommentsAux normal rest
  | normal, '/' :: '*' :: rest =>
      if hasCommentClose rest then stripCommentsAux blockComment rest
      else '/' :: '*' :: stripCommentsAux normal rest
  | normal, c :: rest =>
      c :: stripCommentsAux
        (if c = '\'' then singleQ
         else if c = '"' then doubleQ
         else if c = '`' then backtickQ
         else normal) rest
  | singleQ, c :: rest =>
      c :: stripCommentsAux
        (if c = '\\' then singleQEsc else if c = '\'' then normal else singleQ) rest
  | singleQEsc, c :: rest => c :: stripCommentsAux singleQ rest
  | doubleQ, c :: rest =>
      c :: stripCommentsAux
        (if c = '\\' then doubleQEsc else if c = '"' then normal else doubleQ) rest
  | doubleQEsc, c :: rest => c :: stripCommentsAux doubleQ rest
  | backtickQ, c :: rest =>
      c :: stripCommentsAux (if c = '`' then normal else backtickQ) rest
  | lineComment, c :: rest =>
      if c = '\n' || c = '\r' then ' ' :: stripCommentsAux normal rest
      else stripCommentsAux lineComment rest
  | blockComment, '*' :: '/' :: rest => ' ' :: stripCommentsAux normal rest
  | blockComment, _ :: rest => stripCommentsAux blockComment rest
  | hintLine, c :: rest =>
      c :: stripCommentsAux (if c = '\n' || c = '\r' then normal else hintLine) rest
  | hintBlock, '*' :: '/' :: rest => '*' :: '/' :: stripCommentsAux normal rest
  | hintBlock, c :: rest => c :: stripCommentsAux hintBlock rest

def stripComments (s : List Char) : List Char :=
  stripCommentsAux ScanMode.normal s

/-- Collapse every maximal run of whitespace to a single space (the effect of
`strip_whitespace=True` and of `re.sub(r"\s+", " ", ...)` on the flat text). -/
def collapseWsAux : Bool → List Char → List Char
  | _, [] => []
  | prevSpace, c :: rest =>
      if isSpaceChar c then
        if prevSpace then collapseWsAux true rest
        else ' ' :: collapseWsAux true rest
      else c :: collapseWsAux false rest

def collapseWs (s : List Char) : List Char :=
  collapseWsAux false s

/-- Model of
`sqlparse.format(stripped, strip_comments=True, strip_whitespace=True).strip()`
as applied to the already-stripped input in `validate_sql`. -/
def sqlFormat (s : List Char) : List Char :=
  pstrip (collapseWs (stripComments s))

/-- Quote-tracking state for the statement splitter (comments are already
removed when `sqlparse.parse` runs on the cleaned text). -/
inductive QuoteMode
  | normal
  | singleQ
  | singleQEsc
  | doubleQ
  | doubleQEsc
  | backtickQ
deriving DecidableEq, Repr

open QuoteMode in
def quoteStep (m : QuoteMode) (c : Char) : QuoteMode :=
  match m with
  | normal =>
      if c = '\'' then singleQ
      else if c = '"' then doubleQ
      else if c = '`' then backtickQ
      else normal
  | singleQ => if c = '\\' then singleQEsc else if c = '\'' then normal else singleQ
  | singleQEsc => singleQ
  | doubleQ => if c = '\\' then doubleQEsc else if c = '"' then normal else doubleQ
  | doubleQEsc => doubleQ
  | backtickQ => if c = '`' then normal else backtickQ

/-- The keywords sqlparse classifies as `Keyword.DML`
(`KEYWORDS_COMMON`). -/
def DML_KEYWORDS : List (List Char) :=
  [ "SELECT".data, "INSERT".data, "DELETE".data, "UPDATE".data,
    "UPSERT".data, "REPLACE".data, "MERGE".data ]

/-- Scanner mode of the statement splitter: outside literals, inside a
quoted literal, or inside a preserved optimizer-hint comment (the only
comment form that can survive into the cleaned text the validator parses;
a semicolon inside a hint token never terminates a statement). -/
inductive SplitMode
  | normal
  | singleQ
  | singleQEsc
  | doubleQ
  | doubleQEsc
  | backtickQ
  | hintLine
  | hintBlock
  | hintBlockClose
deriving DecidableEq, Repr

/-- State of sqlparse's `StatementSplitter` as it consumes the cleaned text:
the scanner mode, the split `level` maintained by `_change_splitlevel`
(parentheses and the procedural keywords), the `_is_create` and
`_begin_depth` flags, whether the next word was already consumed as the
second half of a combined `END IF`/`END LOOP`/`END WHILE` token, whether the
previous character was a word character (tokens start at word boundaries),
and the count of hint-opener characters still to pass before `*/` detection
may fire. -/
structure SplitSt where
  mode : SplitMode
  level : Int
  isCreate : Bool
  beginDepth : Nat
  skipWord : Bool
  inWord : Bool
  pend : Nat
deriving DecidableEq, Repr

def initSplitSt : SplitSt :=
  { mode := .normal, level := 0, isCreate := false, beginDepth := 0,
    skipWord := false, inWord := false, pend := 0 }

/-- The `unified == 'END'` branch of `_change_splitlevel`: decrement
`_begin_depth` (floored at zero) and the level. -/
def endSolo (st : SplitSt) : SplitSt :=
  { st with beginDepth := st.beginDepth - 1, level := st.level - 1 }

/-- Model of `StatementSplitter._change_splitlevel` for a word token: `w` is
the word uppercased and `after` the text following it.  Tokenization facts
this encodes: keyword classification is case-insensitive; a word directly
followed by `(` is tokenized as a function `Name`, not a keyword (the
tokenizer's function rule precedes the keyword lookup, except for `CASE`,
whose regex comes first); `END IF`/`END LOOP`/`END WHILE` form one keyword
token whose `END` branch is bypassed — of these only `END IF` and
`END WHILE` are in the tuple that returns `-1`, while `END LOOP` falls
through to the default `0`.  Words other than the ones below leave the
state unchanged, as non-keyword tokens return `0`. -/
def wordEffect (st : SplitSt) (w after : List Char) : SplitSt :=
  if st.skipWord then { st with skipWord := false }
  else if after.head? = some '(' ∧ w ≠ "CASE".data then st
  else if w = "CREATE".data then { st with isCreate := true }
  else if w = "DECLARE".data then
    if st.isCreate ∧ st.beginDepth = 0 then { st with level := st.level + 1 }
    else st
  else if w = "BEGIN".data then
    { st with beginDepth := st.beginDepth + 1,
              level := if st.isCreate then st.level + 1 else st.level }
  else if w = "END".data then
    match after with
    | ' ' :: a2 =>
        let w2 := upChars (a2.takeWhile isWordChar)
        if w2 = "IF".data ∨ w2 = "WHILE".data then
          { st with level := st.level - 1, skipWord := true }
        else if w2 = "LOOP".data then { st with skipWord := true }
        else endSolo st
    | _ => endSolo st
  else if w = "IF".data ∨ w = "FOR".data ∨ w = "WHILE".data ∨ w = "CASE".data then
    if st.isCreate ∧ st.beginDepth > 0 then { st with level := st.level + 1 }
    else st
  else st

/-- One character step of the statement-splitter state.  `rest` is the text
after `c`, used only for bounded lookahead (hint openers and word peeks).
Parentheses move the level by one; words apply `wordEffect` at their first
character; quoted literals and hint comments are opaque. -/
def splitStep (st : SplitSt) (c : Char) (rest : List Char) : SplitSt :=
  let base :=
    match st.mode with
    | .hintLine => if c = '\n' ∨ c = '\r' then { st with mode := .normal } else st
    | .hintBlock =>
        if st.pend > 0 then { st with pend := st.pend - 1 }
        else if c = '*' ∧ rest.head? = some '/' then { st with mode := .hintBlockClose }
        else st
    | .hintBlockClose => { st with mode := .normal }
    | .singleQ =>
        { st with mode := if c = '\\' then .singleQEsc
                          else if c = '\'' then .normal else .singleQ }
    | .singleQEsc => { st with mode := .singleQ }
    | .doubleQ =>
        { st with mode := if c = '\\' then .doubleQEsc
                          else if c = '"' then .normal else .doubleQ }
    | .doubleQEsc => { st with mode := .doubleQ }
    | .backtickQ => { st with mode := if c = '`' then .normal else .backtickQ }
    | .normal =>
        if c = '\'' then { st with mode := .singleQ }
        else if c = '"' then { st with mode := .doubleQ }
        else if c = '`' then { st with mode := .backtickQ }
        else if c = '(' then { st with level := st.level + 1 }
        else if c = ')' then { st with level := st.level - 1 }
        else if c = '-' ∧ rest.head? = some '-' ∧ (rest.drop 1).head? = some '+' then
          { st with mode := .hintLine }
        else if c = '#' ∧ rest.head? = some ' ' ∧ (rest.drop 1).head? = some '+' then
          { st with mode := .hintLine }
        else if c = '/' ∧ rest.head? = some '*' ∧ (rest.drop 1).head? = some '+'
            ∧ hasCommentClose (rest.drop 2) then
          { st with mode := .hintBlock, pend := 2 }
        else if isWordChar c ∧ ¬ st.inWord then
          wordEffect st (upChars (c :: rest.takeWhile isWordChar))
            (rest.dropWhile isWordChar)
        else st
  { base with inWord := isWordChar c }

/-- Model of `StatementSplitter.process`: a semicolon ends the current
statement only at split level at most zero and outside literals and hint
comments; the terminator stays with the fragment it ends and the state is
reset for the next statement (`_reset`).  Returns the first fragment and
the later fragments. -/
def splitAux (st : SplitSt) : List Char → List Char × List (List Char)
  | [] => ([], [])
  | c :: rest =>
      if st.mode = SplitMode.normal ∧ c = ';' ∧ st.level ≤ 0 then
        ([c], (splitAux initSplitSt rest).1 :: (splitAux initSplitSt rest).2)
      else
        (c :: (splitAux (splitStep st c rest) rest).1,
         (splitAux (splitStep st c rest) rest).2)

/-- Model of `sqlparse.parse(cleaned)` viewed as the list of statement
texts: empty input parses to no statements, otherwise to the fragments the
statement splitter produces.  The validator only parses its formatted
output, so the input is whitespace-collapsed and contains no removable
comments (only hints and unterminated `/*` text survive formatting). -/
def parseStatements (s : List Char) : List (List Char) :=
  if s = [] then []
  else (splitAux initSplitSt s).1 :: (splitAux initSplitSt s).2

/-- The first maximal word of a fragment, after leading whitespace. -/
def firstWord (s : List Char) : List Char :=
  (s.dropWhile isSpaceChar).takeWhile isWordChar

/-- The text following the first word of a fragment. -/
def afterFirstWord (s : List Char) : List Char :=
  (s.dropWhile isSpaceChar).dropWhile isWordChar

/-- The CTE branch of `Statement.get_type`: for a `WITH`-headed statement the
type is read from the DML keyword that follows the common-table-expression
definition list.  The scan walks the text after `WITH`, skipping quoted
literals and parenthesized bodies (the CTE subqueries), and returns the
first top-level word classified as a DML keyword; a word directly followed
by `(` is a function name, not a keyword, and does not qualify.  When no
such DML keyword exists `get_type` answers `UNKNOWN` and the runner falls
back to the first token. -/
def findCTEDmlAux : QuoteMode → Int → Bool → List Char → Option (List Char)
  | _, _, _, [] => none
  | m, depth, inW, c :: rest =>
      if m = QuoteMode.normal then
        if c = '(' then findCTEDmlAux m (depth + 1) false rest
        else if c = ')' then findCTEDmlAux m (depth - 1) false rest
        else if isWordChar c ∧ ¬ inW ∧ depth ≤ 0 then
          let w := upChars (c :: rest.takeWhile isWordChar)
          if w ∈ DML_KEYWORDS ∧ (rest.dropWhile isWordChar).head? ≠ some '(' then
            some w
          else findCTEDmlAux m depth true rest
        else findCTEDmlAux (quoteStep m c) depth (isWordChar c) rest
      else findCTEDmlAux (quoteStep m c) depth (isWordChar c) rest

def findCTEDml (s : List Char) : Option (List Char) :=
  findCTEDmlAux QuoteMode.normal 0 false s

/-- The statement type `validate_sql` computes from `stmt.get_type()` with
the first-token fallback for `UNKNOWN`:

* a head word directly followed by `(` tokenizes as a function name, so
  `get_type` is `UNKNOWN` and the fallback stringifies the grouped function
  token — a text starting with the word and the parenthesis, which the
  model keeps as the word plus `(` (it can never equal a bare keyword);
* a `WITH` head takes `get_type`'s CTE branch and classifies by the DML
  keyword after the CTE definitions, falling back to `WITH` when none
  exists;
* every other head — leading DML/DDL keywords via `get_type`, everything
  else via the first-token fallback — yields the first word uppercased. -/
def stmtTypeOf (stmt : List Char) : List Char :=
  let w := upChars (firstWord stmt)
  if (afterFirstWord stmt).head? = some '(' then w ++ ['(']
  else if w = "WITH".data then
    match findCTEDml (afterFirstWord stmt) with
    | some dml => dml
    | none => w
  else w

/-- The `_ALLOWED_STATEMENTS` constant from the source module. -/
def ALLOWED_STATEMENTS : List (List Char) :=
  ["SELECT".data, "SHOW".data, "DESCRIBE".data, "DESC".data, "EXPLAIN".data]

/-- The `_BLOCKED_KEYWORDS` constant from the source module, in source order (the Python
frozenset iterates in an unspecified order; only membership matters to the
validator outcome, the order fixes which keyword a rejection reports). -/
def BLOCKED_KEYWORDS : List (List Char) :=
  [ "INSERT".data, "UPDATE".data, "DELETE".data, "REPLACE".data, "MERGE".data,
    "UPSERT".data,
    "DROP".data, "ALTER".data, "CREATE".data, "TRUNCATE".data, "RENAME".data,
    "GRANT".data, "REVOKE".data,
    "LOCK".data, "UNLOCK".data, "CALL".data, "LOAD".data, "IMPORT".data,
    "SET".data, "KILL".data, "FLUSH".data, "RESET".data, "PURGE".data,
    "HANDLER".data, "DO".data,
    "PREPARE".data, "EXECUTE".data, "DEALLOCATE".data ]

/-- Whether the char before a match position permits a `\b` boundary (no
previous char, or previous char is not a word char). -/
def boundaryBefore : Option Char → Bool
  | none => true
  | some p => !isWordChar p

/-- Whether a `\b` boundary holds right after a match ending here: end of
input or a non-word char next. -/
def boundaryAfter : List Char → Bool
  | [] => true
  | c :: _ => !isWordChar c

/-- Whether `kw` matches at the head of `s` as a whole word, given the char just
before `s` (`prev`). -/
def wordMatchAt (kw s : List Char) (prev : Option Char) : Bool :=
  boundaryBefore prev && kw.isPrefixOf s && boundaryAfter (s.drop kw.length)

/-- Scan `s` for a whole-word occurrence of `kw`; `prev` is the character
immediately before `s` in the full text (`none` at the start). -/
def scanWord (kw : List Char) : Option Char → List Char → Bool
  | _, [] => false
  | prev, c :: rest => wordMatchAt kw (c :: rest) prev || scanWord kw (some c) rest

/-- Model of `re.search(rf"\b{keyword}\b", s)` returning whether a match
exists, for keywords made of word characters. -/
def containsWholeWord (kw s : List Char) : Bool :=
  scanWord kw none s

/-- Fuelled worker for `wordsOf`; the fuel only bounds recursion depth and
any fuel at least the text length gives the same result. -/
def wordsOfFuel : Nat → List Char → List (List Char)
  | 0, _ => []
  | _ + 1, [] => []
  | n + 1, c :: rest =>
      if isWordChar c then
        (c :: rest.takeWhile isWordChar) :: wordsOfFuel n (rest.dropWhile isWordChar)
      else wordsOfFuel n rest

/-- The maximal runs of word characters of a text, in order: the lexical
words the word-boundary scan can match against. -/
def wordsOf (s : List Char) : List (List Char) :=
  wordsOfFuel s.length s

/-- Whether the scan position sits in the middle of a word (the previous
character was a word character), so no `\b` boundary can hold there. -/
def midWord : Option Char → Bool
  | none => false
  | some c => isWordChar c

/-- The words a whole-word scan can still match when the character before the
remaining text `s` is `prev`: if we are mid-word, the current word's
remainder is not matchable at a boundary. -/
def wordsFrom (prev : Option Char) (s : List Char) : List (List Char) :=
  if midWord prev then wordsOf (s.dropWhile isWordChar) else wordsOf s

/-- The reasons `validate_sql` raises `ReadOnlyViolationError`, one per raise
site in the source. -/
inductive Rejection
  | emptyQuery
  | emptyAfterComments
  | couldNotParse
  | multiStatement
  | disallowedStatement (stmtType : List Char)
  | blockedKeyword (kw : List Char)
deriving DecidableEq, Repr

/-- The exceptions that could escape `validate_sql` in the embedding: the
intended `ReadOnlyViolationError`, or the `IndexError` Python would raise at
`non_empty[0]` if the non-empty statement list were empty at that point. -/
inductive PyError
  | readOnlyViolation (r : Rejection)
  | indexError
deriving DecidableEq, Repr

/-- The cleaned text `validate_sql` computes from its input:
`sqlparse.format(sql.strip(), strip_comments=True, strip_whitespace=True).strip()`. -/
def cleanedOf (sql : List Char) : List Char :=
  sqlFormat (pstrip sql)

/-- The text the blocked-keyword scan runs on:
`re.sub(r"\s+", " ", cleaned.upper())`. -/
def normalizedOf (sql : List Char) : List Char :=
  collapseWs (upChars (cleanedOf sql))

/-- The non-empty statement fragments of the cleaned text
(`[s for s in statements if s.value.strip()]`). -/
def nonEmptyFragments (sql : List Char) : List (List Char) :=
  (parseStatements (cleanedOf sql)).filter (fun s => pstrip s ≠ [])

/-- The statement-type whitelist check and the full-body blocked-keyword
scan of `validate_sql` (source lines 164-199), applied to the first
non-empty statement `stmt` and the scan text `normalized`. -/
def checkStatement (allowed : List (List Char)) (stmt normalized : List Char) :
    Except PyError Unit :=
  let stmtType := stmtTypeOf stmt
  if stmtType = [] || !allowed.contains stmtType then
    .error (.readOnlyViolation (.disallowedStatement stmtType))
  else
    match BLOCKED_KEYWORDS.find? (fun kw => containsWholeWord kw normalized) with
    | some kw => .error (.readOnlyViolation (.blockedKeyword kw))
    | none => .ok ()

/-- Shallow embedding of `ReadOnlyMySQLRunner.validate_sql`.  `allowed` is
`self._allowed`.  `Except.error` models a raised exception, `Except.ok ()` a
normal return (approval). -/
def validate_sql (allowed : List (List Char)) (sql : List Char) :
    Except PyError Unit :=
  let stripped := pstrip sql
  if stripped = [] then .error (.readOnlyViolation .emptyQuery)
  else
    let cleaned := sqlFormat stripped
    if cleaned = [] then .error (.readOnlyViolation .emptyAfterComments)
    else
      let statements := parseStatements cleaned
      if statements = [] then .error (.readOnlyViolation .couldNotParse)
      else
        let nonEmpty := statements.filter (fun s => pstrip s ≠ [])
        if nonEmpty.length > 1 then .error (.readOnlyViolation .multiStatement)
        else
          match nonEmpty with
          | [] => .error .indexError
          | stmt :: _ => checkStatement allowed stmt (collapseWs (upChars cleaned))

/-- The allow-list computed by `ReadOnlyMySQLRunner.__init__`:
`frozenset(s.upper() for s in allowed_statements) if allowed_statements else
_ALLOWED_STATEMENTS`.  Python truthiness makes both `None` and the empty list
take the default branch. -/
def initAllowed (allowedStatements : Option (List (List Char))) : List (List Char) :=
  match allowedStatements with
  | none => ALLOWED_STATEMENTS
  | some l => if l = [] then ALLOWED_STATEMENTS else l.map upChars

/-- Construction outcome of `ReadOnlyMySQLRunner.__init__` as far as the
allow-list configuration is concerned: `Except.error` would model an
exception raised during construction, `Except.ok` the configured allow-list.
The source raises nothing on this path. -/
def runnerInit (allowedStatements : Option (List (List Char))) :
    Except PyError (List (List Char)) :=
  .ok (initAllowed allowedStatements)

/-- The observable database calls `run_sql` makes, in order. -/
inductive DbEvent
  | connect
  | ping
  | setSessionReadOnly
  | execQuery (sql : List Char)
  | fetchAll
  | closeCursor
  | closeConn
deriving DecidableEq, Repr

/-- Oracle describing which database calls succeed on this run; a `false`
models the corresponding `pymysql` call raising. -/
structure DbBehavior where
  connectOk : Bool
  pingOk : Bool
  setReadOnlyOk : Bool
  execOk : Bool
  fetchOk : Bool
deriving DecidableEq, Repr

/-- Outcome of a `run_sql` call. -/
inductive RunOutcome
  | success
  | raisedValidation (e : PyError)
  | raisedConnect
  | raisedDb
deriving DecidableEq, Repr

/-- Events of the `try` block body of `run_sql` and whether it completed:
`conn.ping`, `SET SESSION TRANSACTION READ ONLY`, `cursor.execute(args.sql)`,
`cursor.fetchall()`, then `cursor.close()` on success; the first failing call
aborts the rest of the block. -/
def tryBody (db : DbBehavior) (sql : List Char) : List DbEvent × Bool :=
  if !db.pingOk then ([.ping], false)
  else if !db.setReadOnlyOk then ([.ping, .setSessionReadOnly], false)
  else if !db.execOk then ([.ping, .setSessionReadOnly, .execQuery sql], false)
  else if !db.fetchOk then
    ([.ping, .setSessionReadOnly, .execQuery sql, .fetchAll], false)
  else
    ([.ping, .setSessionReadOnly, .execQuery sql, .fetchAll, .closeCursor], true)

/-- Shallow embedding of `ReadOnlyMySQLRunner.run_sql`: validate first; on
approval connect, run the `try` block, and close the connection in `finally`
whether or not the block succeeded.  A validation error propagates before any
connection exists; a failed connect leaves no connection to close. -/
def run_sql (allowed : List (List Char)) (db : DbBehavior) (sql : List Char) :
    List DbEvent × RunOutcome :=
  match validate_sql allowed sql with
  | .error e => ([], .raisedValidation e)
  | .ok _ =>
      if db.connectOk then
        (DbEvent.connect :: (tryBody db sql).1 ++ [DbEvent.closeConn],
         if (tryBody db sql).2 then .success else .raisedDb)
      else
        ([DbEvent.connect], .raisedConnect)

/-! ## Helper lemmas -/

lemma dropWhile_head_not (p : Char → Bool) (t : List Char) (c : Char) (r : List Char)
    (h : t.dropWhile p = c :: r) : p c = false := by
  induction t with
  | nil => simp at h
  | cons a t ih =>
      by_cases ha : p a = true
      · rw [List.dropWhile_cons_of_pos ha] at h
        exact ih h
      · rw [List.dropWhile_cons_of_neg ha] at h
        injection h with h1 _
        subst h1
        simpa using ha

lemma pstrip_head_not_space (t : List Char) (c : Char) (rest : List Char)
    (h : pstrip t = c :: rest) : isSpaceChar c = false := by
  have hpre : pstrip t <+: t.dropWhile isSpaceChar :=
    List.rdropWhile_prefix isSpaceChar (t.dropWhile isSpaceChar)
  rw [h] at hpre
  obtain ⟨tail, htail⟩ := hpre
  exact dropWhile_head_not isSpaceChar t c (rest ++ tail) htail.symm

lemma pstrip_cons_ne_nil (c : Char) (f : List Char) (hc : isSpaceChar c = false) :
    pstrip (c :: f) ≠ [] := by
  unfold pstrip
  rw [List.dropWhile_cons_of_neg (by simp [hc])]
  intro hnil
  rw [List.rdropWhile_eq_nil_iff] at hnil
  have := hnil c (List.mem_cons_self c f)
  simp [hc] at this

lemma splitAux_fst_head (st : SplitSt) (c : Char) (rest : List Char) :
    ∃ f, (splitAux st (c :: rest)).1 = c :: f := by
  by_cases h : st.mode = SplitMode.normal ∧ c = ';' ∧ st.level ≤ 0
  · exact ⟨[], by simp only [splitAux, if_pos h]⟩
  · exact ⟨(splitAux (splitStep st c rest) rest).1, by simp only [splitAux, if_neg h]⟩

lemma firstFragment_pstrip_ne_nil (st : SplitSt) (c : Char) (rest : List Char)
    (hc : isSpaceChar c = false) :
    pstrip (splitAux st (c :: rest)).1 ≠ [] := by
  obtain ⟨f, hf⟩ := splitAux_fst_head st c rest
  rw [hf]
  exact pstrip_cons_ne_nil c f hc

lemma cleanedOf_eq_pstrip (sql : List Char) :
    cleanedOf sql = pstrip (collapseWs (stripComments (pstrip sql))) := rfl

lemma sqlFormat_nil : sqlFormat [] = [] := rfl

lemma parseStatements_ne_nil (s : List Char) (h : s ≠ []) : parseStatements s ≠ [] := by
  unfold parseStatements
  rw [if_neg h]
  exact List.cons_ne_nil _ _

lemma nonEmptyFragments_ne_nil (sql : List Char) (h : cleanedOf sql ≠ []) :
    nonEmptyFragments sql ≠ [] := by
  obtain ⟨c, rest, hcr⟩ : ∃ c rest, cleanedOf sql = c :: rest := by
    cases hcl : cleanedOf sql with
    | nil => exact absurd hcl h
    | cons c rest => exact ⟨c, rest, rfl⟩
  have hc : isSpaceChar c = false := by
    refine pstrip_head_not_space (collapseWs (stripComments (pstrip sql))) c rest ?_
    rw [← cleanedOf_eq_pstrip]
    exact hcr
  unfold nonEmptyFragments parseStatements
  rw [hcr, if_neg (List.cons_ne_nil c rest)]
  rw [List.filter_cons]
  have h1 : pstrip (splitAux initSplitSt (c :: rest)).1 ≠ [] :=
    firstFragment_pstrip_ne_nil initSplitSt c rest hc
  simp [h1]

lemma cleaned_ne_nil_of_fragments (sql : List Char)
    (h : nonEmptyFragments sql ≠ []) : cleanedOf sql ≠ [] := by
  intro h0
  apply h
  unfold nonEmptyFragments
  rw [h0]
  rfl

lemma stripped_ne_nil_of_cleaned (sql : List Char)
    (h : cleanedOf sql ≠ []) : pstrip sql ≠ [] := by
  intro h0
  apply h
  show sqlFormat (pstrip sql) = []
  rw [h0]
  exact sqlFormat_nil

lemma validate_sql_of_empty_stripped (allowed : List (List Char)) (sql : List Char)
    (hst : pstrip sql = []) :
    validate_sql allowed sql = .error (.readOnlyViolation .emptyQuery) := by
  simp [validate_sql, hst]

lemma validate_sql_of_empty_cleaned (allowed : List (List Char)) (sql : List Char)
    (hst : pstrip sql ≠ []) (hcl : sqlFormat (pstrip sql) = []) :
    validate_sql allowed sql = .error (.readOnlyViolation .emptyAfterComments) := by
  simp [validate_sql, hst, hcl]

lemma validate_sql_of_multi (allowed : List (List Char)) (sql : List Char)
    (h : 2 ≤ (nonEmptyFragments sql).length) :
    validate_sql allowed sql = .error (.readOnlyViolation .multiStatement) := by
  have hne : nonEmptyFragments sql ≠ [] := by
    intro h0
    rw [h0] at h
    simp at h
  have hcl : cleanedOf sql ≠ [] := cleaned_ne_nil_of_fragments sql hne
  have hst : pstrip sql ≠ [] := stripped_ne_nil_of_cleaned sql hcl
  have hcl' : sqlFormat (pstrip sql) ≠ [] := hcl
  have hpar : parseStatements (sqlFormat (pstrip sql)) ≠ [] :=
    parseStatements_ne_nil _ hcl'
  have hlen : ((parseStatements (sqlFormat (pstrip sql))).filter
      (fun s => pstrip s ≠ [])).length > 1 := h
  simp only [validate_sql, if_neg hst, if_neg hcl', if_neg hpar, if_pos hlen]

lemma validate_sql_of_single (allowed : List (List Char)) (sql : List Char)
    (stmt : List Char) (rest : List (List Char))
    (hfrag : nonEmptyFragments sql = stmt :: rest)
    (hone : ¬ 2 ≤ (nonEmptyFragments sql).length) :
    validate_sql allowed sql = checkStatement allowed stmt (normalizedOf sql) := by
  have hne : nonEmptyFragments sql ≠ [] := by
    rw [hfrag]; exact List.cons_ne_nil _ _
  have hcl : cleanedOf sql ≠ [] := cleaned_ne_nil_of_fragments sql hne
  have hst : pstrip sql ≠ [] := stripped_ne_nil_of_cleaned sql hcl
  have hcl' : sqlFormat (pstrip sql) ≠ [] := hcl
  have hpar : parseStatements (sqlFormat (pstrip sql)) ≠ [] :=
    parseStatements_ne_nil _ hcl'
  have hfrag' : (parseStatements (sqlFormat (pstrip sql))).filter
      (fun s => pstrip s ≠ []) = stmt :: rest := hfrag
  have hlen2 : ¬ (stmt :: rest).length > 1 := by
    rw [hfrag] at hone
    exact hone
  simp only [validate_sql, if_neg hst, if_neg hcl', if_neg hpar, hfrag', if_neg hlen2]
  rfl

lemma checkStatement_disallowed (allowed : List (List Char))
    (stmt normalized : List Char)
    (hty : stmtTypeOf stmt = [] ∨
      allowed.contains (stmtTypeOf stmt) = false) :
    checkStatement allowed stmt normalized =
      .error (.readOnlyViolation (.disallowedStatement (stmtTypeOf stmt))) := by
  have hcond : (decide (stmtTypeOf stmt = []) ||
      !allowed.contains (stmtTypeOf stmt)) = true := by
    rcases hty with h | h
    · simp [h]
    · rw [h]; simp
  simp only [checkStatement, hcond, if_true]

lemma checkStatement_allowed (allowed : List (List Char))
    (stmt normalized : List Char)
    (hty1 : stmtTypeOf stmt ≠ [])
    (hty2 : allowed.contains (stmtTypeOf stmt) = true) :
    checkStatement allowed stmt normalized =
      match BLOCKED_KEYWORDS.find? (fun kw => containsWholeWord kw normalized) with
      | some kw => .error (.readOnlyViolation (.blockedKeyword kw))
      | none => .ok () := by
  have hcond : (decide (stmtTypeOf stmt = []) ||
      !allowed.contains (stmtTypeOf stmt)) = false := by
    rw [hty2]
    simp [hty1]
  simp only [checkStatement, hcond, Bool.false_eq_true, if_false]

lemma wordsOfFuel_eq_of_le (n m : Nat) (s : List Char)
    (hn : s.length ≤ n) (hm : s.length ≤ m) :
    wordsOfFuel n s = wordsOfFuel m s := by
  induction n generalizing s m with
  | zero =>
      have hs : s = [] := List.length_eq_zero.mp (Nat.le_zero.mp hn)
      subst hs
      cases m <;> rfl
  | succ n ih =>
      cases s with
      | nil => cases m <;> rfl
      | cons c rest =>
          cases m with
          | zero => simp at hm
          | succ m =>
              have hrest : rest.length ≤ n := by
                simpa using Nat.succ_le_succ_iff.mp hn
              have hrestm : rest.length ≤ m := by
                simpa using Nat.succ_le_succ_iff.mp hm
              have hdrop : (rest.dropWhile isWordChar).length ≤ rest.length :=
                (List.dropWhile_sublist _).length_le
              by_cases hc : isWordChar c = true
              · simp only [wordsOfFuel, hc, if_true]
                exact congrArg _ (ih m (rest.dropWhile isWordChar)
                  (Nat.le_trans hdrop hrest) (Nat.le_trans hdrop hrestm))
              · simp only [wordsOfFuel, hc]
                simp only [Bool.false_eq_true, if_false]
                exact ih m rest hrest hrestm

lemma wordsOf_cons_pos (c : Char) (rest : List Char) (hc : isWordChar c = true) :
    wordsOf (c :: rest) =
      (c :: rest.takeWhile isWordChar) :: wordsOf (rest.dropWhile isWordChar) := by
  show wordsOfFuel (rest.length + 1) (c :: rest) = _
  simp only [wordsOfFuel, hc, if_true]
  exact congrArg _ (wordsOfFuel_eq_of_le rest.length
    (rest.dropWhile isWordChar).length (rest.dropWhile isWordChar)
    ((List.dropWhile_sublist _).length_le) (Nat.le_refl _))

lemma wordsOf_cons_neg (c : Char) (rest : List Char) (hc : isWordChar c = false) :
    wordsOf (c :: rest) = wordsOf rest := by
  show wordsOfFuel (rest.length + 1) (c :: rest) = wordsOfFuel rest.length rest
  simp only [wordsOfFuel, hc]
  simp only [Bool.false_eq_true, if_false]

lemma wordPrefix_iff_takeWhile (kw : List Char)
    (hw : ∀ c ∈ kw, isWordChar c = true) (s : List Char) :
    (kw.isPrefixOf s && boundaryAfter (s.drop kw.length)) = true ↔
      kw = s.takeWhile isWordChar := by
  induction kw generalizing s with
  | nil =>
      cases s with
      | nil => simp [boundaryAfter]
      | cons c cs =>
          by_cases hc : isWordChar c = true
          · simp [boundaryAfter, hc, List.takeWhile_cons]
          · simp [boundaryAfter, hc, List.takeWhile_cons]
  | cons k kt ih =>
      have hk : isWordChar k = true := hw k (List.mem_cons_self k kt)
      have hw' : ∀ c ∈ kt, isWordChar c = true :=
        fun c hc => hw c (List.mem_cons_of_mem k hc)
      cases s with
      | nil => simp
      | cons c cs =>
          by_cases hkc : k = c
          · subst hkc
            rw [List.takeWhile_cons_of_pos hk]
            simp only [List.isPrefixOf_cons₂, beq_self_eq_true, Bool.true_and,
              List.length_cons, List.drop_succ_cons, List.cons.injEq, true_and]
            exact ih hw' cs
          · rw [List.takeWhile_cons]
            simp only [List.isPrefixOf_cons₂]
            have hbeq : (k == c) = false := beq_eq_false_iff_ne.mpr hkc
            rw [hbeq]
            simp only [Bool.false_and, Bool.false_eq_true, false_iff]
            by_cases hc : isWordChar c = true
            · simp only [hc, if_true]
              intro hcontr
              exact hkc (List.cons.injEq .. ▸ hcontr).1
            · simp only [hc]
              simp only [Bool.false_eq_true, if_false]
              exact fun hcontr => List.cons_ne_nil _ _ hcontr

lemma scanWord_iff_mem_wordsFrom (kw : List Char) (hne : kw ≠ [])
    (hw : ∀ c ∈ kw, isWordChar c = true) (s : List Char) :
    ∀ prev, scanWord kw prev s = true ↔ kw ∈ wordsFrom prev s := by
  induction s with
  | nil =>
      intro prev
      simp only [scanWord, wordsFrom, List.dropWhile_nil]
      cases hmw : midWord prev <;> simp [wordsOf, wordsOfFuel]
  | cons c rest ih =>
      intro prev
      have hstep : scanWord kw prev (c :: rest) =
          (wordMatchAt kw (c :: rest) prev || scanWord kw (some c) rest) := rfl
      cases hmw : midWord prev with
      | true =>
          obtain ⟨p, hp, hpw⟩ : ∃ p, prev = some p ∧ isWordChar p = true := by
            cases prev with
            | none => simp [midWord] at hmw
            | some p => exact ⟨p, rfl, hmw⟩
          have hbb : boundaryBefore prev = false := by
            rw [hp]
            simp [boundaryBefore, hpw]
          have hmatch : wordMatchAt kw (c :: rest) prev = false := by
            simp [wordMatchAt, hbb]
          rw [hstep, hmatch, Bool.false_or]
          have hwf : wordsFrom prev (c :: rest) =
              wordsOf ((c :: rest).dropWhile isWordChar) := by
            simp [wordsFrom, hmw]
          rw [hwf]
          by_cases hc : isWordChar c = true
          · rw [List.dropWhile_cons_of_pos hc]
            have : wordsFrom (some c) rest = wordsOf (rest.dropWhile isWordChar) := by
              simp [wordsFrom, midWord, hc]
            rw [← this]
            exact ih (some c)
          · rw [List.dropWhile_cons_of_neg (by simp [hc])]
            have hcf : isWordChar c = false := by
              cases h : isWordChar c
              · rfl
              · exact absurd h hc
            rw [wordsOf_cons_neg c rest hcf]
            have : wordsFrom (some c) rest = wordsOf rest := by
              simp [wordsFrom, midWord, hcf]
            rw [← this]
            exact ih (some c)
      | false =>
          have hbb : boundaryBefore prev = true := by
            cases prev with
            | none => rfl
            | some p =>
                simp only [midWord] at hmw
                simp [boundaryBefore, hmw]
          have hwf : wordsFrom prev (c :: rest) = wordsOf (c :: rest) := by
            simp [wordsFrom, hmw]
          rw [hstep, hwf]
          obtain ⟨k, kt, hkkt⟩ : ∃ k kt, kw = k :: kt := by
            cases kw with
            | nil => exact absurd rfl hne
            | cons k kt => exact ⟨k, kt, rfl⟩
          have hk : isWordChar k = true := by
            apply hw
            rw [hkkt]
            exact List.mem_cons_self k kt
          by_cases hc : isWordChar c = true
          · rw [wordsOf_cons_pos c rest hc]
            have hmatch : wordMatchAt kw (c :: rest) prev = true ↔
                kw = c :: rest.takeWhile isWordChar := by
              rw [wordMatchAt, hbb, Bool.true_and]
              rw [wordPrefix_iff_takeWhile kw hw (c :: rest)]
              rw [List.takeWhile_cons_of_pos hc]
            have htail : wordsFrom (some c) rest =
                wordsOf (rest.dropWhile isWordChar) := by
              simp [wordsFrom, midWord, hc]
            rw [Bool.or_eq_true, hmatch, List.mem_cons]
            rw [← htail]
            exact or_congr Iff.rfl (ih (some c))
          · have hcf : isWordChar c = false := by
              cases h : isWordChar c
              · rfl
              · exact absurd h hc
            have hmatch : wordMatchAt kw (c :: rest) prev = false := by
              rw [wordMatchAt, hbb, Bool.true_and]
              rw [hkkt]
              simp only [List.isPrefixOf_cons₂]
              have hbeq : (k == c) = false := by
                apply beq_eq_false_iff_ne.mpr
                intro hkc
                rw [hkc, hcf] at hk
                exact Bool.noConfusion hk
              rw [hbeq]
              simp
            rw [hmatch, Bool.false_or]
            rw [wordsOf_cons_neg c rest hcf]
            have : wordsFrom (some c) rest = wordsOf rest := by
              simp [wordsFrom, midWord, hcf]
            rw [← this]
            exact ih (some c)

lemma containsWholeWord_iff_mem_words (kw : List Char) (hne : kw ≠ [])
    (hw : ∀ c ∈ kw, isWordChar c = true) (s : List Char) :
    containsWholeWord kw s = true ↔ kw ∈ wordsOf s := by
  have h := scanWord_iff_mem_wordsFrom kw hne hw s none
  have hwf : wordsFrom none s = wordsOf s := by
    simp [wordsFrom, midWord]
  rw [hwf] at h
  exact h

lemma blocked_keywords_wordlike :
    ∀ kw ∈ BLOCKED_KEYWORDS, kw ≠ [] ∧ ∀ c ∈ kw, isWordChar c = true := by
  decide

lemma run_sql_of_validation_error (allowed : List (List Char))
    (db : DbBehavior) (sql : List Char) (e : PyError)
    (h : validate_sql allowed sql = .error e) :
    run_sql allowed db sql = ([], .raisedValidation e) := by
  simp [run_sql, h]

/-! ## Claim theorems -/

/-- C5: whenever validation rejects a query, `run_sql` propagates the
rejection with an empty database-event trace: no connection is opened, no
statement is executed, and no result is built. -/
theorem run_sql_rejection_short_circuits (allowed : List (List Char))
    (db : DbBehavior) (sql : List Char) (e : PyError)
    (h : validate_sql allowed sql = .error e) :
    run_sql allowed db sql = ([], .raisedValidation e) :=
  run_sql_of_validation_error allowed db sql e h

/-- Witness for C5 at the concrete rejected query `DROP TABLE users`. -/
theorem run_sql_rejection_short_circuits_witness :
    validate_sql ALLOWED_STATEMENTS ("DROP TABLE users".data) =
      .error (.readOnlyViolation (.disallowedStatement ("DROP".data))) ∧
    run_sql ALLOWED_STATEMENTS ⟨true, true, true, true, true⟩ ("DROP TABLE users".data) =
      ([], .raisedValidation (.readOnlyViolation (.disallowedStatement ("DROP".data)))) :=
  ⟨rfl, run_sql_rejection_short_circuits _ _ _ _ rfl⟩

/-- C6: contrary to the specified fail-fast behaviour, constructing the
runner with an explicitly empty allow-list does not raise: Python truthiness
makes the empty list take the default branch, so construction succeeds and
the module default allow-list is silently used. -/
theorem runnerInit_empty_allow_list_succeeds :
    runnerInit (some []) = .ok ALLOWED_STATEMENTS := rfl

/-- C8: an input with zero non-empty statement fragments after normalization
(empty, whitespace-only, or comment-only) is rejected with one of the two
empty-query reasons and is never approved. -/
theorem validate_sql_rejects_empty (allowed : List (List Char)) (sql : List Char)
    (h : nonEmptyFragments sql = []) :
    validate_sql allowed sql = .error (.readOnlyViolation .emptyQuery) ∨
    validate_sql allowed sql = .error (.readOnlyViolation .emptyAfterComments) := by
  by_cases hst : pstrip sql = []
  · left
    simp [validate_sql, hst]
  by_cases hcl : sqlFormat (pstrip sql) = []
  · right
    simp [validate_sql, hst, hcl]
  · exact absurd h (nonEmptyFragments_ne_nil sql hcl)

/-- Witness for C8 at a comment-only input. -/
theorem validate_sql_rejects_empty_witness :
    nonEmptyFragments (" /* just a comment */ ".data) = [] ∧
    (validate_sql ALLOWED_STATEMENTS (" /* just a comment */ ".data) =
        .error (.readOnlyViolation .emptyQuery) ∨
      validate_sql ALLOWED_STATEMENTS (" /* just a comment */ ".data) =
        .error (.readOnlyViolation .emptyAfterComments)) :=
  ⟨by decide, validate_sql_rejects_empty _ _ (by decide)⟩

/-- C1: any input whose comment-stripped, uppercased, whitespace-collapsed
body contains a blocked keyword as a whole word is rejected by validation
with a `ReadOnlyViolationError` (some rejection reason) and is never
approved, whatever the configured allow-list. -/
theorem validate_sql_rejects_blocked_keyword (allowed : List (List Char))
    (sql kw : List Char) (hkw : kw ∈ BLOCKED_KEYWORDS)
    (hocc : containsWholeWord kw (normalizedOf sql) = true) :
    ∃ r, validate_sql allowed sql = .error (.readOnlyViolation r) := by
  by_cases hst : pstrip sql = []
  · exact ⟨_, validate_sql_of_empty_stripped allowed sql hst⟩
  by_cases hcl : sqlFormat (pstrip sql) = []
  · exact ⟨_, validate_sql_of_empty_cleaned allowed sql hst hcl⟩
  by_cases hlen : 2 ≤ (nonEmptyFragments sql).length
  · exact ⟨_, validate_sql_of_multi allowed sql hlen⟩
  have hne := nonEmptyFragments_ne_nil sql hcl
  obtain ⟨stmt, rest, hfrag⟩ := List.exists_cons_of_ne_nil hne
  rw [validate_sql_of_single allowed sql stmt rest hfrag hlen]
  by_cases hty1 : stmtTypeOf stmt = []
  · exact ⟨_, checkStatement_disallowed allowed stmt _ (Or.inl hty1)⟩
  by_cases hty2 : allowed.contains (stmtTypeOf stmt) = true
  · rw [checkStatement_allowed allowed stmt _ hty1 hty2]
    have hsome : (BLOCKED_KEYWORDS.find?
        (fun k => containsWholeWord k (normalizedOf sql))).isSome :=
      List.find?_isSome.mpr ⟨kw, hkw, hocc⟩
    obtain ⟨kw', hkw'⟩ := Option.isSome_iff_exists.mp hsome
    rw [hkw']
    exact ⟨_, rfl⟩
  · have hf : allowed.contains (stmtTypeOf stmt) = false := by
      cases h : allowed.contains (stmtTypeOf stmt)
      · rfl
      · exact absurd h hty2
    exact ⟨_, checkStatement_disallowed allowed stmt _ (Or.inr hf)⟩

/-- Witness for C1: a lower-case blocked verb hidden behind a comment-headed
`SELECT` body is still rejected. -/
theorem validate_sql_rejects_blocked_keyword_witness :
    ("DELETE".data ∈ BLOCKED_KEYWORDS) ∧
    containsWholeWord ("DELETE".data)
      (normalizedOf ("SELECT 1 WHERE x IN (select delete from t)".data)) = true ∧
    ∃ r, validate_sql ALLOWED_STATEMENTS
      ("SELECT 1 WHERE x IN (select delete from t)".data) =
        .error (.readOnlyViolation r) :=
  ⟨by decide, by decide,
    validate_sql_rejects_blocked_keyword ALLOWED_STATEMENTS
      ("SELECT 1 WHERE x IN (select delete from t)".data) ("DELETE".data)
      (by decide) (by decide)⟩

/-- C10: for every input, `validate_sql` either returns normally or raises
`ReadOnlyViolationError` with one of the four live failure modes (empty
query, multi-statement, disallowed statement type, blocked keyword); the
parse-failure raise site and the `non_empty[0]` indexing are unreachable, so
no other exception escapes. -/
theorem validate_sql_single_exception_type (allowed : List (List Char))
    (sql : List Char) :
    validate_sql allowed sql = .ok () ∨
    ∃ r, validate_sql allowed sql = .error (.readOnlyViolation r) ∧
      (r = .emptyQuery ∨ r = .emptyAfterComments ∨ r = .multiStatement ∨
       (∃ t, r = .disallowedStatement t) ∨ (∃ kw, r = .blockedKeyword kw)) := by
  by_cases hst : pstrip sql = []
  · exact Or.inr ⟨_, validate_sql_of_empty_stripped allowed sql hst, Or.inl rfl⟩
  by_cases hcl : sqlFormat (pstrip sql) = []
  · exact Or.inr ⟨_, validate_sql_of_empty_cleaned allowed sql hst hcl,
      Or.inr (Or.inl rfl)⟩
  by_cases hlen : 2 ≤ (nonEmptyFragments sql).length
  · exact Or.inr ⟨_, validate_sql_of_multi allowed sql hlen,
      Or.inr (Or.inr (Or.inl rfl))⟩
  have hne := nonEmptyFragments_ne_nil sql hcl
  obtain ⟨stmt, rest, hfrag⟩ := List.exists_cons_of_ne_nil hne
  rw [validate_sql_of_single allowed sql stmt rest hfrag hlen]
  by_cases hty1 : stmtTypeOf stmt = []
  · exact Or.inr ⟨_, checkStatement_disallowed allowed stmt _ (Or.inl hty1),
      Or.inr (Or.inr (Or.inr (Or.inl ⟨_, rfl⟩)))⟩
  by_cases hty2 : allowed.contains (stmtTypeOf stmt) = true
  · rw [checkStatement_allowed allowed stmt _ hty1 hty2]
    cases hfind : BLOCKED_KEYWORDS.find?
        (fun kw => containsWholeWord kw (normalizedOf sql)) with
    | none => exact Or.inl rfl
    | some kw =>
        exact Or.inr ⟨_, rfl, Or.inr (Or.inr (Or.inr (Or.inr ⟨kw, rfl⟩)))⟩
  · have hf : allowed.contains (stmtTypeOf stmt) = false := by
      cases h : allowed.contains (stmtTypeOf stmt)
      · rfl
      · exact absurd h hty2
    exact Or.inr ⟨_, checkStatement_disallowed allowed stmt _ (Or.inr hf),
      Or.inr (Or.inr (Or.inr (Or.inl ⟨_, rfl⟩)))⟩

/-- C7: the deny-list scan matches only on lexical-word boundaries: if no
maximal word of the normalized query body equals a blocked keyword — even
though identifiers may contain blocked keywords as proper substrings —
validation never rejects for a blocked keyword. -/
theorem validate_sql_no_substring_false_positive (allowed : List (List Char))
    (sql : List Char)
    (h : ∀ kw ∈ BLOCKED_KEYWORDS, kw ∉ wordsOf (normalizedOf sql)) :
    ∀ kw, validate_sql allowed sql ≠
      .error (.readOnlyViolation (.blockedKeyword kw)) := by
  have hfalse : ∀ kw ∈ BLOCKED_KEYWORDS,
      containsWholeWord kw (normalizedOf sql) = false := by
    intro kw hkw
    obtain ⟨hne, hw⟩ := blocked_keywords_wordlike kw hkw
    cases hb : containsWholeWord kw (normalizedOf sql)
    · rfl
    · exact absurd ((containsWholeWord_iff_mem_words kw hne hw
        (normalizedOf sql)).mp hb) (h kw hkw)
  intro kw
  by_cases hst : pstrip sql = []
  · rw [validate_sql_of_empty_stripped allowed sql hst]
    simp
  by_cases hcl : sqlFormat (pstrip sql) = []
  · rw [validate_sql_of_empty_cleaned allowed sql hst hcl]
    simp
  by_cases hlen : 2 ≤ (nonEmptyFragments sql).length
  · rw [validate_sql_of_multi allowed sql hlen]
    simp
  have hne2 := nonEmptyFragments_ne_nil sql hcl
  obtain ⟨stmt, rest, hfrag⟩ := List.exists_cons_of_ne_nil hne2
  rw [validate_sql_of_single allowed sql stmt rest hfrag hlen]
  by_cases hty1 : stmtTypeOf stmt = []
  · rw [checkStatement_disallowed allowed stmt _ (Or.inl hty1)]
    simp
  by_cases hty2 : allowed.contains (stmtTypeOf stmt) = true
  · rw [checkStatement_allowed allowed stmt _ hty1 hty2]
    have hnone : BLOCKED_KEYWORDS.find?
        (fun k => containsWholeWord k (normalizedOf sql)) = none := by
      rw [List.find?_eq_none]
      intro x hx
      simp [hfalse x hx]
    rw [hnone]
    simp
  · have hf : allowed.contains (stmtTypeOf stmt) = false := by
      cases hco : allowed.contains (stmtTypeOf stmt)
      · rfl
      · exact absurd hco hty2
    rw [checkStatement_disallowed allowed stmt _ (Or.inr hf)]
    simp

/-- Witness for C7: identifiers containing blocked verbs as substrings
(`created_at`, `updates`, `delete_flag`) do not trigger the keyword scan. -/
theorem validate_sql_no_substring_false_positive_witness :
    (∀ kw ∈ BLOCKED_KEYWORDS, kw ∉ wordsOf (normalizedOf
      ("SELECT created_at, updates FROM t WHERE delete_flag = 0".data))) ∧
    validate_sql ALLOWED_STATEMENTS
        ("SELECT created_at, updates FROM t WHERE delete_flag = 0".data) ≠
      .error (.readOnlyViolation (.blockedKeyword ("UPDATE".data))) :=
  ⟨by decide,
    validate_sql_no_substring_false_positive ALLOWED_STATEMENTS
      ("SELECT created_at, updates FROM t WHERE delete_flag = 0".data)
      (by decide) ("UPDATE".data)⟩

lemma run_sql_ok_trace (allowed : List (List Char)) (db : DbBehavior)
    (sql : List Char) (hv : validate_sql allowed sql = .ok ())
    (hc : db.connectOk = true) :
    (run_sql allowed db sql).1 =
      DbEvent.connect :: (tryBody db sql).1 ++ [DbEvent.closeConn] := by
  simp [run_sql, hv, hc]

lemma closeConn_not_in_tryBody (db : DbBehavior) (sql : List Char) :
    DbEvent.closeConn ∉ (tryBody db sql).1 := by
  obtain ⟨co, pi, se, ex, fe⟩ := db
  cases pi <;> cases se <;> cases ex <;> cases fe <;> simp [tryBody]

/-- C3: whenever the trace of `run_sql` executes the approved statement, the
trace begins with connecting, pinging, and issuing
`SET SESSION TRANSACTION READ ONLY`, in that order, before the statement is
executed; the statement never runs on a session not first put in read-only
mode. -/
theorem run_sql_read_only_before_execute (allowed : List (List Char))
    (db : DbBehavior) (sql : List Char)
    (h : DbEvent.execQuery sql ∈ (run_sql allowed db sql).1) :
    ∃ rest, (run_sql allowed db sql).1 =
      DbEvent.connect :: DbEvent.ping :: DbEvent.setSessionReadOnly ::
        DbEvent.execQuery sql :: rest := by
  obtain ⟨co, pi, se, ex, fe⟩ := db
  cases hv : validate_sql allowed sql with
  | error e =>
      rw [run_sql_of_validation_error allowed _ sql e hv] at h
      simp at h
  | ok u =>
      cases u
      cases co
      · rw [run_sql] at h ⊢
        rw [hv] at h ⊢
        simp at h
      · cases pi
        · exfalso
          rw [run_sql_ok_trace allowed _ sql hv rfl] at h
          simp [tryBody] at h
        · cases se
          · exfalso
            rw [run_sql_ok_trace allowed _ sql hv rfl] at h
            simp [tryBody] at h
          · cases ex
            · refine ⟨[DbEvent.closeConn], ?_⟩
              rw [run_sql_ok_trace allowed _ sql hv rfl]
              simp [tryBody]
            · cases fe
              · refine ⟨[DbEvent.fetchAll, DbEvent.closeConn], ?_⟩
                rw [run_sql_ok_trace allowed _ sql hv rfl]
                simp [tryBody]
              · refine ⟨[DbEvent.fetchAll, DbEvent.closeCursor,
                  DbEvent.closeConn], ?_⟩
                rw [run_sql_ok_trace allowed _ sql hv rfl]
                simp [tryBody]

/-- Witness for C3 on a healthy database run of an approved query. -/
theorem run_sql_read_only_before_execute_witness :
    DbEvent.execQuery ("SELECT 1".data) ∈
      (run_sql ALLOWED_STATEMENTS ⟨true, true, true, true, true⟩
        ("SELECT 1".data)).1 ∧
    ∃ rest, (run_sql ALLOWED_STATEMENTS ⟨true, true, true, true, true⟩
        ("SELECT 1".data)).1 =
      DbEvent.connect :: DbEvent.ping :: DbEvent.setSessionReadOnly ::
        DbEvent.execQuery ("SELECT 1".data) :: rest :=
  ⟨by decide,
    run_sql_read_only_before_execute ALLOWED_STATEMENTS
      ⟨true, true, true, true, true⟩ ("SELECT 1".data) (by decide)⟩

/-- C9: once a connection has been acquired on an approved query, the trace
releases it exactly once, as its final action, on every exit path (success
or any database-call failure). -/
theorem run_sql_closes_connection (allowed : List (List Char))
    (db : DbBehavior) (sql : List Char)
    (hv : validate_sql allowed sql = .ok ())
    (hc : db.connectOk = true) :
    ∃ pre, (run_sql allowed db sql).1 = pre ++ [DbEvent.closeConn] ∧
      DbEvent.closeConn ∉ pre := by
  refine ⟨DbEvent.connect :: (tryBody db sql).1, ?_, ?_⟩
  · rw [run_sql_ok_trace allowed db sql hv hc]
  · intro hmem
    rcases List.mem_cons.mp hmem with h1 | h2
    · exact absurd h1 (by simp)
    · exact closeConn_not_in_tryBody db sql h2

/-- Witness for C9 on a run where the statement execution fails: the
connection is still closed last. -/
theorem run_sql_closes_connection_witness :
    validate_sql ALLOWED_STATEMENTS ("SELECT 1".data) = .ok () ∧
    (DbBehavior.mk true true true false false).connectOk = true ∧
    ∃ pre, (run_sql ALLOWED_STATEMENTS ⟨true, true, true, false, false⟩
        ("SELECT 1".data)).1 = pre ++ [DbEvent.closeConn] ∧
      DbEvent.closeConn ∉ pre :=
  ⟨rfl, rfl,
    run_sql_closes_connection ALLOWED_STATEMENTS
      ⟨true, true, true, false, false⟩ ("SELECT 1".data) rfl rfl⟩

end ReadOnlyRunner
